import Mathlib

/-!
Verification of the Blockize/Tensorize scheduling primitives of
`src/tir/schedule/primitive/blockize_tensorize.cc`.

The development shallowly embeds the data model and the functions of that
file: pure C++ helpers become Lean functions, the visitor classes become
explicit recursions over a statement tree, and the mutable out-parameter
arrays become fields of accumulator structures threaded through the
recursion.  Machine integers in the source only occur as sizes and dtype
bit widths, which are modelled with `Nat`/`Int` directly.
-/

namespace BlockizeVerify

/-- Variables.  `tvm::tir::Var` has pointer identity and a name hint; the
model identifies a variable by its name string, which is sufficient for
the properties below (`copy_with_suffix` appends the suffix to the name,
exactly as the C++ name hint does). -/
abbrev Var := String

/-- `Var::copy_with_suffix`: a copy of the variable whose name hint gets
the given suffix appended. -/
def copyWithSuffix (v : Var) (s : String) : Var := v ++ s

/-- The fragment of `tvm::PrimExpr` used by the blockize primitives:
variables, integer immediates, boolean immediates, and the arithmetic
appearing in derived block bindings. -/
inductive PrimExpr where
  | var : Var → PrimExpr
  | intConst : Int → PrimExpr
  | boolConst : Bool → PrimExpr
  | add : PrimExpr → PrimExpr → PrimExpr
  | mul : PrimExpr → PrimExpr → PrimExpr
  deriving DecidableEq

/-- Whether the variable `v` occurs in the expression (the characteristic
function used through `UsesVar(x, var)` in the source). -/
def PrimExpr.occurs (v : Var) : PrimExpr → Bool
  | .var w => v == w
  | .intConst _ => false
  | .boolConst _ => false
  | .add a b => a.occurs v || b.occurs v
  | .mul a b => a.occurs v || b.occurs v

/-- `UsesVar(expr, [var_set](...){ return var_set.count(var); })`: the
expression mentions at least one variable of the given list. -/
def usesAnyOf (vars : List Var) (e : PrimExpr) : Bool :=
  vars.any (fun v => e.occurs v)

/-- `tvm::tir::is_one`: the expression is literally the integer constant 1. -/
def isOne : PrimExpr → Bool
  | .intConst 1 => true
  | _ => false

/-- `Range` = (min, extent). -/
structure RangeE where
  min : PrimExpr
  extent : PrimExpr
  deriving DecidableEq

/-- `RangeFromExtent(e)` = `Range::FromMinExtent(make_zero(e->dtype), e)`;
the typed zero is modelled as the integer constant 0. -/
def rangeFromExtent (e : PrimExpr) : RangeE := ⟨.intConst 0, e⟩

/-- The iterator kinds distinguished by the source: `kDataPar`,
`kCommReduce`, and everything else. -/
inductive IterType where
  | dataPar
  | commReduce
  | otherKind
  deriving DecidableEq

/-- `IterVar` = (dom, var, iter_type). -/
structure IterVar where
  dom : RangeE
  var : Var
  iterType : IterType
  deriving DecidableEq

/-! ### Iter marks (certificates returned by the subspace division)

`arith::IterMark` carries a source iter-map expression and an extent.  The
source is either an `IterSumExpr({}, base)` (normalizing to `base`), an
`IterSplitExpr` over a whole mark (normalizing to that mark's source), or
an expression produced by the external affine solver, carried here by the
plain expression `NormalizeIterMapToExpr` would return for it. -/

inductive IterExpr where
  | sumE : PrimExpr → IterExpr
  | splitE : PrimExpr → PrimExpr → IterExpr
  | solverE : PrimExpr → IterExpr
  deriving DecidableEq

/-- `arith::NormalizeIterMapToExpr` on the modelled iter-map expressions. -/
def normalizeIterMapToExpr : IterExpr → PrimExpr
  | .sumE base => base
  | .splitE src _ => src
  | .solverE e => e

/-- `arith::IterMark(source, extent)`. -/
structure IterMark where
  source : IterExpr
  extent : PrimExpr
  deriving DecidableEq

/-- `arith::IterMark(arith::IterSumExpr({}, 0), 1)`, the unit iter-mark of
`TrivialSubspaceDivision`. -/
def unitIterMark : IterMark := ⟨.sumE (.intConst 0), .intConst 1⟩

/-! ### `DeriveBlockBinding` (blockize_tensorize.cc:205)

The mutable out-arrays `outer_iter_vars`, `outer_bindings`,
`inner_iter_vars`, `inner_bindings` and the returned `block_var_subst`
map become the fields of `DeriveAcc`; the `Map` keeps insertion order as
an association list.  The only call site (`BlockizeImpl`, line 511) leaves
`reuse_outer` at its default `false`, so the reuse branch (lines 232-236)
is never taken and is not modelled. -/

structure DeriveAcc where
  outerIterVars : List IterVar
  outerBindings : List PrimExpr
  innerIterVars : List IterVar
  innerBindings : List PrimExpr
  subst : List (Var × PrimExpr)
  deriving DecidableEq

/-- One iteration of the loop body of `DeriveBlockBinding` (lines 218-269),
processing original iter var `iv` with division entry `(om, im)`. -/
def deriveStep (preserve : Bool) (iv : IterVar) (om im : IterMark)
    (st : DeriveAcc) : DeriveAcc :=
  let outerIter : IterVar :=
    ⟨rangeFromExtent om.extent, copyWithSuffix iv.var "_o", iv.iterType⟩
  let st :=
    { st with
      outerBindings := st.outerBindings ++ [normalizeIterMapToExpr om.source]
      outerIterVars := st.outerIterVars ++ [outerIter] }
  if isOne im.extent then
    -- Skip inner var when extent is 1
    let sub : PrimExpr :=
      if isOne om.extent && !preserve then
        -- Simplify outer if not preserve_unit_iters
        .intConst 0
      else
        -- `sub = outer_iter` converts the IterVar to its var
        .var outerIter.var
    { st with subst := st.subst ++ [(iv.var, sub)] }
  else
    let innerIter : IterVar :=
      ⟨rangeFromExtent im.extent, copyWithSuffix iv.var "_i", iv.iterType⟩
    let st :=
      { st with
        innerBindings := st.innerBindings ++ [normalizeIterMapToExpr im.source]
        innerIterVars := st.innerIterVars ++ [innerIter] }
    let sub : PrimExpr :=
      if isOne om.extent then .var innerIter.var
      else .add (.mul (.var outerIter.var) im.extent) (.var innerIter.var)
    { st with subst := st.subst ++ [(iv.var, sub)] }

/-- The loop of `DeriveBlockBinding` over the original iter vars paired
with their division entries. -/
def deriveGo (preserve : Bool) :
    List (IterVar × IterMark × IterMark) → DeriveAcc → DeriveAcc
  | [], st => st
  | (iv, om, im) :: rest, st => deriveGo preserve rest (deriveStep preserve iv om im st)

/-- `DeriveBlockBinding(iter_vars, division, ...)`.  The division list has
one entry per iter var plus a final predicate pair (`ICHECK_EQ` line 216);
zipping pairs each iter var with its entry and drops the final pair. -/
def deriveBlockBinding (preserve : Bool) (iterVars : List IterVar)
    (division : List (IterMark × IterMark)) : DeriveAcc :=
  deriveGo preserve (iterVars.zip division)
    ⟨[], [], [], [], []⟩

/-- The substitution `DeriveBlockBinding` records for one original iter
var, spelled as the four-way case analysis of the claim. -/
def deriveSubstShape (preserve : Bool) (e : IterVar × IterMark × IterMark) :
    Var × PrimExpr :=
  (e.1.var,
    if isOne e.2.2.extent then
      if isOne e.2.1.extent && !preserve then .intConst 0
      else .var (copyWithSuffix e.1.var "_o")
    else if isOne e.2.1.extent then .var (copyWithSuffix e.1.var "_i")
    else .add (.mul (.var (copyWithSuffix e.1.var "_o")) e.2.2.extent)
      (.var (copyWithSuffix e.1.var "_i")))

/-! ### `TrivialSubspaceDivision` (blockize_tensorize.cc:88)

The loop over `bindings` with its early `return {}` is modelled by an
auxiliary recursion returning `Option`; the enclosing function turns a
`none` into the empty result, exactly as the C++ early return does. -/

/-- The iter-mark built for binding `b` of iter var `iv` (lines 117-124):
a split over the whole binding when the binding is a bare variable, an
`IterSumExpr({}, b)` otherwise; the extent is the iter var's extent. -/
def trivialIterMark (b : PrimExpr) (iv : IterVar) : IterMark :=
  match b with
  | .var _ => ⟨.splitE b iv.dom.extent, iv.dom.extent⟩
  | _ => ⟨.sumE b, iv.dom.extent⟩

/-- The loop of `TrivialSubspaceDivision` (lines 114-134). -/
def trivialGo (useOuter useInner : PrimExpr → Bool) :
    List (PrimExpr × IterVar) → Option (List (IterMark × IterMark))
  | [] => some []
  | (b, iv) :: rest =>
    let outer := useOuter b
    let inner := useInner b
    let iterMark := trivialIterMark b iv
    if outer && !inner then
      (trivialGo useOuter useInner rest).map ((iterMark, unitIterMark) :: ·)
    else if inner && !outer then
      (trivialGo useOuter useInner rest).map ((unitIterMark, iterMark) :: ·)
    else if !outer && !inner then
      (trivialGo useOuter useInner rest).map ((unitIterMark, unitIterMark) :: ·)
    else
      none

/-- The final entry pushed on success (lines 135-136):
`IterMark(IterSumExpr({}, 0), Bool(true))` on both sides. -/
def trivialPredMark : IterMark := ⟨.sumE (.intConst 0), .boolConst true⟩

/-- `TrivialSubspaceDivision(iter_vars, bindings, predicate, outer_iters,
inner_iters)`. -/
def trivialSubspaceDivision (iterVars : List IterVar)
    (bindings : List PrimExpr) (predicate : PrimExpr)
    (outerIters innerIters : List Var) : List (IterMark × IterMark) :=
  if !isOne predicate then []
  else
    match trivialGo (usesAnyOf outerIters) (usesAnyOf innerIters)
        (bindings.zip iterVars) with
    | none => []
    | some res => res ++ [(trivialPredMark, trivialPredMark)]

/-- What claim C3 asserts about one successful division entry, in terms of
what its marks normalize to: the used side carries the binding with the
iter var's extent, the unused side is the unit iter-mark. -/
def trivialEntrySpec (useOuter useInner : PrimExpr → Bool)
    (p : PrimExpr × IterVar) (e : IterMark × IterMark) : Prop :=
  if useOuter p.1 && !useInner p.1 then
    normalizeIterMapToExpr e.1.source = p.1 ∧ e.1.extent = p.2.dom.extent
      ∧ e.2 = unitIterMark
  else if useInner p.1 && !useOuter p.1 then
    e.1 = unitIterMark ∧ normalizeIterMapToExpr e.2.source = p.1
      ∧ e.2.extent = p.2.dom.extent
  else
    e.1 = unitIterMark ∧ e.2 = unitIterMark

/-! ### `SubspaceDivide` (blockize_tensorize.cc:156)

The walk from the block's parent over the chain of enclosing `For` nodes
is modelled on the chain given bottom-up (the block's immediate parent
loop first, as the `sref->parent` walk visits them).  Loops are identified
by a numeric id standing for pointer identity. -/

/-- A `For` node: id (pointer identity), loop var, min, extent. -/
structure ForStmt where
  id : Nat
  loopVar : Var
  minE : PrimExpr
  extent : PrimExpr
  deriving DecidableEq

/-- The classification walk of `SubspaceDivide` (lines 162-180): returns
(collected inner `loops` in push order, inner loop vars, outer loop vars).
`inner` starts `true` and is cleared after the iteration that processes
`loop_sref` (or, with `loop_sref_as_outer`, the iteration whose parent is
`loop_sref`); the parent of a chain element is the next list element. -/
def subspaceDivideWalk (loopSrefId : Nat) (asOuter : Bool) :
    List ForStmt → Bool → List ForStmt × List Var × List Var
  | [], _ => ([], [], [])
  | l :: rest, inner =>
    let nextInner :=
      if (asOuter && (rest.head?.map (·.id) == some loopSrefId))
          || l.id == loopSrefId then false
      else inner
    let (loops, innerVars, outerVars) :=
      subspaceDivideWalk loopSrefId asOuter rest nextInner
    if inner then (l :: loops, l.loopVar :: innerVars, outerVars)
    else (loops, innerVars, l.loopVar :: outerVars)

/-- The collected inner loops, in the order `SubspaceDivide` pushes them
(bottom-up: the loop closest to the block first). -/
def collectInnerLoops (loopSrefId : Nat) (chain : List ForStmt) :
    List ForStmt :=
  (subspaceDivideWalk loopSrefId false chain true).1

/-! ### Blocks, block realizes, `GenerateInner` (blockize_tensorize.cc:283) -/

/-- A statement fragment large enough for init bodies: buffer stores and
sequencing.  `usesVar` mirrors `UsesVar` on statements. -/
inductive SStmt where
  | store : String → List PrimExpr → PrimExpr → SStmt
  | seq2 : SStmt → SStmt → SStmt
  deriving DecidableEq

def SStmt.usesVar (v : Var) : SStmt → Bool
  | .store _ idx val => idx.any (fun e => e.occurs v) || val.occurs v
  | .seq2 a b => a.usesVar v || b.usesVar v

/-- Buffer regions are opaque to the reads/writes bookkeeping of
`GenerateInner`; a region is modelled by a tag. -/
abbrev BufferRegionM := String

/-- The `Block` fields the blockize primitives manipulate. -/
structure BlockM where
  iterVars : List IterVar
  reads : List BufferRegionM
  writes : List BufferRegionM
  name : String
  init : Option SStmt
  deriving DecidableEq

/-- `BlockRealize` = (iter_values, predicate, block). -/
structure BlockRealizeM where
  iterValues : List PrimExpr
  predicate : PrimExpr
  block : BlockM
  deriving DecidableEq

/-- `GenerateInner(is_write_reduction, iter_vars, iter_values, predicate,
block)`: overwrite the iter vars, clear the init, and when the write
regions are reduction prepend the block's writes to its reads. -/
def generateInner (isWriteReduction : Bool) (iterVars : List IterVar)
    (iterValues : List PrimExpr) (predicate : PrimExpr) (block : BlockM) :
    BlockRealizeM :=
  let b :=
    { block with
      iterVars := iterVars
      init := none
      reads :=
        if isWriteReduction then block.writes ++ block.reads
        else block.reads }
  ⟨iterValues, predicate, b⟩

/-- `BlockizeImpl` step 5 (lines 526-534): the write regions of the inner
block are reduction when the substituted block has an init and some outer
iter var is `kCommReduce`. -/
def hasOuterReduction (blockSubst : BlockM) (outerIterVars : List IterVar) :
    Bool :=
  if blockSubst.init.isSome then
    outerIterVars.any (fun iv => iv.iterType == .commReduce)
  else false

/-! ### `SubspaceNotDivisibleError` (blockize_tensorize.cc:47) -/

/-- The error payload: module, scope loop and inner block, as stored by
the constructor. -/
structure SNDError where
  mod : String
  scopeLoop : ForStmt
  innerBlock : BlockM
  deriving DecidableEq

/-- `FastErrorString` (line 54). -/
def SNDError.fastErrorString (_ : SNDError) : String :=
  "ScheduleError: The bindings of the inner block can not be blockized."

/-- A location of interest is either a block or a loop. -/
inductive Loc where
  | blockLoc : BlockM → Loc
  | forLoc : ForStmt → Loc
  deriving DecidableEq

/-- `LocationsOfInterest` (line 65): `{inner_block_, scope_loop_}`. -/
def SNDError.locationsOfInterest (e : SNDError) : List Loc :=
  [.blockLoc e.innerBlock, .forLoc e.scopeLoop]

/-- `BlockizeImpl` step 2 (lines 500-502): when the division is empty,
throw `SubspaceNotDivisibleError(self->mod, GetRef<For>(loops.back()),
block)`.  `loops.back()` is the last collected inner loop; the default is
irrelevant because the loop chain of a blockized loop sref is non-empty. -/
def blockizeDivisionCheck (mod : String)
    (division : List (IterMark × IterMark)) (loops : List ForStmt)
    (block : BlockM) : Option SNDError :=
  if division.isEmpty then
    some ⟨mod, (loops.getLast?).getD ⟨0, "", .intConst 0, .intConst 0⟩, block⟩
  else none

/-! ### `GenerateOuterInit` (blockize_tensorize.cc:309)

The subtree built for the outer block's init: a `BlockRealize` wrapped in
clones of the inner loops used by the init bindings.  The substitution map
threaded through steps 1 and 3 is an association list of variable
renames. -/

/-- The realize at the bottom of the init subtree. -/
structure InitRealize where
  iterValues : List PrimExpr
  predicate : PrimExpr
  iterVars : List IterVar
  writes : List BufferRegionM
  name : String
  body : SStmt
  deriving DecidableEq

/-- The init subtree: loops wrapping the realize. -/
inductive InitSubtree where
  | realizeS : InitRealize → InitSubtree
  | forS : ForStmt → InitSubtree → InitSubtree
  deriving DecidableEq

/-- Step 1 (lines 317-334): keep the iter vars of the inner block that are
data parallel and used by the original init body, renaming each with the
`_init` suffix; record the rename and keep the matching iter value. -/
def initFilterIters (blockInit : SStmt) :
    List (IterVar × PrimExpr) →
      List (Var × Var) × List IterVar × List PrimExpr
  | [] => ([], [], [])
  | (iv, value) :: rest =>
    let (sm, ivs, vals) := initFilterIters blockInit rest
    if iv.iterType == .dataPar && blockInit.usesVar iv.var then
      let nv := copyWithSuffix iv.var "_init"
      ((iv.var, nv) :: sm, { iv with var := nv } :: ivs, value :: vals)
    else (sm, ivs, vals)

/-- Step 3 (lines 347-362): wrap the statement in a clone of each inner
loop whose loop var is used by at least one init binding; the loops are
given bottom-up, so each kept loop becomes the new outermost one.  The
clone's loop var is `copy_with_suffix("")`, which keeps the name. -/
def wrapInitLoops (iterValues : List PrimExpr) :
    List ForStmt → InitSubtree × List (Var × Var) →
      InitSubtree × List (Var × Var)
  | [], acc => acc
  | loop :: rest, (stmt, sm) =>
    let isInitLoop := iterValues.any (fun b => b.occurs loop.loopVar)
    if isInitLoop then
      let nv := copyWithSuffix loop.loopVar ""
      wrapInitLoops iterValues rest
        (.forS { loop with loopVar := nv } stmt, (loop.loopVar, nv) :: sm)
    else wrapInitLoops iterValues rest (stmt, sm)

/-- Application of a variable-rename map to an expression. -/
def PrimExpr.substVars (sm : List (Var × Var)) : PrimExpr → PrimExpr
  | .var w =>
    match sm.lookup w with
    | some nv => .var nv
    | none => .var w
  | .intConst n => .intConst n
  | .boolConst b => .boolConst b
  | .add a b => .add (a.substVars sm) (b.substVars sm)
  | .mul a b => .mul (a.substVars sm) (b.substVars sm)

def SStmt.substVars (sm : List (Var × Var)) : SStmt → SStmt
  | .store buf idx val =>
    .store buf (idx.map (PrimExpr.substVars sm)) (val.substVars sm)
  | .seq2 a b => .seq2 (a.substVars sm) (b.substVars sm)

/-- Step 4 (line 364): `Substitute(stmt, subst_map)` over the init
subtree.  The mutator rewrites the expressions of the subtree (loop
bounds, iter values, predicate, iter var domains, body); the defining
occurrences (`loop_var`, iter var names) are not expressions and stay. -/
def InitSubtree.substVars (sm : List (Var × Var)) : InitSubtree → InitSubtree
  | .forS f b =>
    .forS { f with minE := f.minE.substVars sm, extent := f.extent.substVars sm }
      (b.substVars sm)
  | .realizeS r =>
    .realizeS
      { r with
        iterValues := r.iterValues.map (PrimExpr.substVars sm)
        predicate := r.predicate.substVars sm
        iterVars := r.iterVars.map fun iv =>
          { iv with dom := ⟨iv.dom.min.substVars sm, iv.dom.extent.substVars sm⟩ }
        body := r.body.substVars sm }

/-- `GenerateOuterInit(block_init, inner_realize, loops, block_name)`:
step 1 filters and renames the iter vars (the `ICHECK_EQ` of line 319
pairs iter vars with iter values, here by `zip`), step 2 builds the init
realize, step 3 wraps it in the used inner loops, step 4 applies the
accumulated renames.  `fi` = (subst map, iter vars, iter values); `w` =
(wrapped subtree, extended subst map). -/
def generateOuterInit (blockInit : SStmt) (innerRealize : BlockRealizeM)
    (loops : List ForStmt) (blockName : String) : InitSubtree :=
  let pairs := innerRealize.block.iterVars.zip innerRealize.iterValues
  let fi := initFilterIters blockInit pairs
  let stmt : InitSubtree :=
    .realizeS ⟨fi.2.2, innerRealize.predicate, fi.2.1,
      innerRealize.block.writes, blockName, blockInit⟩
  let w := wrapInitLoops fi.2.2 loops (stmt, fi.1)
  w.1.substVars w.2

/-- The loop vars of the loops wrapping the init realize, outermost
first. -/
def InitSubtree.loopVars : InitSubtree → List Var
  | .forS f b => f.loopVar :: b.loopVars
  | .realizeS _ => []

/-- The iter vars of the init realize at the bottom of the subtree. -/
def InitSubtree.initIterVars : InitSubtree → List IterVar
  | .forS _ b => b.initIterVars
  | .realizeS r => r.iterVars

/-! ### The affine-binding flag bookkeeping of `Blockize`
(blockize_tensorize.cc:558)

The schedule state is reduced to the `block_info` flags it stores per
scope root (srefs are numeric ids); `Replace` and `UpdateScopeBlockInfo`
are external operations and enter the model as arbitrary state
transformers. -/

structure SchedState where
  affineFlags : Nat → Bool

/-- `ScheduleState::IsAffineBlockBinding` reads the cached flag. -/
def isAffineBlockBinding (s : SchedState) (root : Nat) : Bool :=
  s.affineFlags root

/-- Lines 563-568 of `Blockize`: replace, capture the scope root's flag,
refresh the scope block info, and write the captured flag back. -/
def blockizeUpdateInfo (replaceFn updateFn : SchedState → SchedState)
    (s : SchedState) (scopeRoot : Nat) : SchedState :=
  let s1 := replaceFn s
  let flag := isAffineBlockBinding s1 scopeRoot
  let s2 := updateFn s1
  { s2 with
    affineFlags := fun r => if r = scopeRoot then flag else s2.affineFlags r }

/-! ### Tensorize: index-width scan and match-buffer construction
(blockize_tensorize.cc:928)

The index expressions manipulated here carry a data type, so a second,
typed expression fragment is used: every `TExpr` has a `dtype` with a bit
width, `make_const(dtype, 1)` and `cast(dtype, e)` are constructors. -/

/-- A scalar data type, by its bit width. -/
structure DTy where
  bits : Nat
  deriving DecidableEq

/-- Typed expressions: variables, constants and casts. -/
inductive TExpr where
  | var : Var → DTy → TExpr
  | const : DTy → Int → TExpr
  | cast : DTy → TExpr → TExpr
  deriving DecidableEq

/-- The data type of a typed expression. -/
def TExpr.dtype : TExpr → DTy
  | .var _ d => d
  | .const d _ => d
  | .cast d _ => d

/-- Typed `Range` = (min, extent). -/
structure TRange where
  min : TExpr
  extent : TExpr
  deriving DecidableEq

/-- A buffer: name (identity), shape. -/
structure TBuffer where
  name : String
  shape : List TExpr
  deriving DecidableEq

/-- `BufferRegion` over typed ranges. -/
structure TBufferRegion where
  buffer : TBuffer
  region : List TRange
  deriving DecidableEq

/-- `MatchBufferRegion(source_buffer, target_region)`. -/
structure TMatchBufferRegion where
  source : TBuffer
  target : TBufferRegion
  deriving DecidableEq

/-- The region loop of Tensorize step 4 (lines 998-1011): with
`offset = |indices_base| - |old_region|`, the first `offset` dimensions
are `(indices_base[i], make_const(min.dtype(), 1))` and the remaining
dimensions are `(indices_base[i+offset], cast(min.dtype(),
old_region[i]->extent))`.  Out-of-range defaults never trigger because
the loop bounds keep the indices below `|indices_base|`. -/
def mkNewRegion (indicesBase : List TExpr) (oldRegion : List TRange) :
    List TRange :=
  let offset := indicesBase.length - oldRegion.length
  ((List.range offset).map fun i =>
    let m := indicesBase.getD i (.const ⟨0⟩ 0)
    (⟨m, TExpr.const m.dtype 1⟩ : TRange))
  ++ ((List.range oldRegion.length).map fun i =>
    let m := indicesBase.getD (i + offset) (.const ⟨0⟩ 0)
    (⟨m, TExpr.cast m.dtype (oldRegion.getD i ⟨.const ⟨0⟩ 0, .const ⟨0⟩ 0⟩).extent⟩ : TRange))

/-- One iteration of the match-buffer loop (lines 993-1012): for an impl
parameter with buffer `impl`, current buffer `cur`, comparator base
indices `indicesBase`, and the impl buffer's original region `oldRegion`,
emit `MatchBufferRegion(impl, BufferRegion(cur, new_region))`. -/
def mkMatchBufferRegion (impl cur : TBuffer) (indicesBase : List TExpr)
    (oldRegion : List TRange) : TMatchBufferRegion :=
  ⟨impl, ⟨cur, mkNewRegion indicesBase oldRegion⟩⟩

/-! ### Tensorize step B: index dtype bit-width scan (lines 948-959) -/

/-- `f_update_max_dtype_bits_from_region`: fold the maximum of
`range->min.dtype().bits()` over every range of every buffer region into
the accumulator. -/
def updateMaxDtypeBitsFromRegion (acc : Int)
    (bufferRegions : List TBufferRegion) : Int :=
  bufferRegions.foldl
    (fun a br => br.region.foldl (fun a r => max a (r.min.dtype.bits : Int)) a)
    acc

/-- The intrinsic implementation, reduced to what the normalization step
observes: an identity tag and the index bit width its index-typed
expressions use. -/
structure IntrinImpl where
  tag : String
  indexBits : Int
  deriving DecidableEq

/-- `DeepCopy` = `LoadJSON(SaveJSON(stmt))`: a structurally equal copy. -/
def deepCopy (impl : IntrinImpl) : IntrinImpl := impl

/-- Modelled from the spec: `IndexDataTypeNormalizer(DataType::Int(bits))
.Rewrite(intrin_impl)` (declared in `tvm/tir/data_type_rewriter.h`, whose
implementation is outside this repository's sources) rewrites the
implementation so that all index-type expressions use the given width. -/
def indexDataTypeNormalizer (bits : Int) (impl : IntrinImpl) : IntrinImpl :=
  { impl with indexBits := bits }

/-- Lines 946-959 of `Tensorize`: deep-copy the registered implementation,
scan the matched block's reads then writes starting from `-1`, fail the
`ICHECK(index_dtype_bits > 0)` when no bound was seen, and otherwise
rewrite the copy.  Returns the rewritten working copy together with the
untouched registry entry, or `none` for the fatal check. -/
def tensorizeIndexNormalize (registryImpl : IntrinImpl)
    (reads writes : List TBufferRegion) :
    Option (IntrinImpl × IntrinImpl) :=
  let intrinImpl := deepCopy registryImpl
  let indexDtypeBits : Int :=
    updateMaxDtypeBitsFromRegion (updateMaxDtypeBitsFromRegion (-1) reads)
      writes
  if indexDtypeBits > 0 then
    some (indexDataTypeNormalizer indexDtypeBits intrinImpl, registryImpl)
  else none

/-- All the dtype bit widths the scan visits, reads first. -/
def scannedBits (reads writes : List TBufferRegion) : List Int :=
  (reads ++ writes).flatMap fun br => br.region.map fun r => (r.min.dtype.bits : Int)

/-! ### Group-form blockize: `CollectSubstInfo` (blockize_tensorize.cc:572)
and `BlockizeBlocks::RewriteSeq` (line 838)

The statement tree the visitors walk.  `For` and `Block` nodes carry a
numeric id standing for pointer identity (the `lca_->stmt` and
`blocks_` comparisons compare pointers). -/

inductive GStmt where
  | gfor : Nat → Var → PrimExpr → GStmt → GStmt
  | gblock : Nat → String → List IterVar → GStmt → GStmt
  | grealize : List PrimExpr → PrimExpr → GStmt → GStmt
  | gseq : List GStmt → GStmt
  | gleaf : GStmt

/-- `ana.CanProveEqual` of the throwaway analyzer in `CollectSubstInfo`
is used on loop extents versus block iter extents; syntactic equality
suffices for it in this model. -/
def canProveEqual (a b : PrimExpr) : Bool := a == b

/-- `Downcast<Var>` on an outer-binding entry, which the collector only
applies to the loop vars it pushed itself. -/
def asVar : PrimExpr → Var
  | .var v => v
  | _ => ""

/-- The mutable fields of `CollectSubstInfo`, including the out-parameter
arrays of `Collect`.  `checksOk` records that every `ICHECK` the
traversal executed succeeded. -/
structure CollectState where
  outerBindings : List PrimExpr
  outerExtent : List PrimExpr
  outerIterVars : List IterVar
  blockVarSubst : List (Var × Var)
  inLca : Bool
  numOuterIterVars : Nat
  numTravered : Nat
  checksOk : Bool
  deriving DecidableEq

def initCollectState : CollectState := ⟨[], [], [], [], false, 0, 0, true⟩

/-- The body of the iter-var loop in `CollectSubstInfo::VisitStmt_(const
BlockNode*)` (lines 629-649): for each iter var position `i` below the
number of collected outer extents, check the extent against the loop's,
and on the first such block (`num_outer_iter_vars == 0`) mint an outer
iter var named `"v" + outer_binding_name` and record the substitution. -/
def collectBlockIterStep (st : CollectState) (i : Nat) (iv : IterVar) :
    CollectState :=
  if i < st.outerExtent.length then
    let st :=
      { st with
        checksOk := st.checksOk
          && canProveEqual (st.outerExtent.getD i (.intConst 0)) iv.dom.extent }
    let outerBind := asVar (st.outerBindings.getD i (.intConst 0))
    let outerIter : IterVar := ⟨iv.dom, "v" ++ outerBind, iv.iterType⟩
    if st.numOuterIterVars = 0 then
      { st with
        outerIterVars := st.outerIterVars ++ [outerIter]
        blockVarSubst := st.blockVarSubst ++ [(iv.var, outerIter.var)] }
    else st
  else st

mutual

/-- `CollectSubstInfo`'s visitor.  The `For` case (lines 598-619) pushes
the loop var and extent, recurses, pops again when the subtree did not
contain the LCA, and clears `in_lca` when the traversal depth returns to
zero; the `Block` case (lines 621-656) stops at a root LCA, collects
iter-var info for blocks inside the LCA, and otherwise recurses. -/
def collectStmt (lcaId : Nat) : GStmt → CollectState → CollectState
  | .gfor id v extent body, st =>
    if !st.inLca then
      let st := if id == lcaId then { st with inLca := true } else st
      let st :=
        { st with
          outerBindings := st.outerBindings ++ [.var v]
          outerExtent := st.outerExtent ++ [extent]
          numTravered := st.numTravered + 1 }
      let st := collectStmt lcaId body st
      let st := { st with numTravered := st.numTravered - 1 }
      let st :=
        if !st.inLca then
          { st with
            outerBindings := st.outerBindings.dropLast
            outerExtent := st.outerExtent.dropLast }
        else st
      if st.numTravered == 0 then { st with inLca := false } else st
    else collectStmt lcaId body st
  | .gblock id name iterVars body, st =>
    if id == lcaId && name == "root" then st
    else if st.inLca && !iterVars.isEmpty then
      let st := (iterVars.enum).foldl (fun st p => collectBlockIterStep st p.1 p.2) st
      { st with numOuterIterVars := st.numOuterIterVars + 1 }
    else collectStmt lcaId body st
  | .grealize _ _ b, st => collectStmt lcaId b st
  | .gseq ss, st => collectList lcaId ss st
  | .gleaf, st => st

def collectList (lcaId : Nat) : List GStmt → CollectState → CollectState
  | [], st => st
  | s :: rest, st => collectList lcaId rest (collectStmt lcaId s st)

end

mutual

/-- Whether visiting a sequence child with the `BlockizeBlocks` mutator
sets `_target_in`: the mutator recurses through loops, if-then-else and
block realizes, and at a `Block` marks it when its sref is among the
targets — a non-target block is returned as-is without recursing into its
body (line 790), so targets below a non-target block are not found. -/
def containsTarget (targets : List Nat) : GStmt → Bool
  | .gfor _ _ _ body => containsTarget targets body
  | .gblock id _ _ _ => targets.contains id
  | .grealize _ _ b => containsTarget targets b
  | .gseq ss => containsTargetList targets ss
  | .gleaf => false

def containsTargetList (targets : List Nat) : List GStmt → Bool
  | [] => false
  | s :: rest => containsTarget targets s || containsTargetList targets rest

end

/-- The outer `BlockRealize` built by `RewriteSeq` (lines 871-880 and
894-903): iter values, predicate, the outer block's iter vars and name.
The outer block's reads/writes (`UnionRegions` of the accumulated
regions) and its `SeqStmt` body are not needed by the claims and are left
out of this record. -/
structure OuterRealize where
  iterValues : List PrimExpr
  predicate : PrimExpr
  iterVars : List IterVar
  name : String
  deriving DecidableEq

/-- Construction of the outer `BlockRealize`, including the dummy-iter
synthesis (lines 861-869 and 885-892): when the collector produced no
outer iter vars (the `!outer_iter_vars.defined()` check — the array is
defined exactly when the collector pushed onto it), clear the bindings
and use the single `init_o` iter of extent 1 bound to 0.  The predicate
is `make_const(DataType::Bool(), true)` at both construction sites. -/
def mkOuterRealize (outerIterVars : List IterVar)
    (outerBindings : List PrimExpr) (name : String) : OuterRealize :=
  if outerIterVars.isEmpty then
    let newVar : Var := "init"
    let outerIter : IterVar :=
      ⟨rangeFromExtent (.intConst 1), copyWithSuffix newVar "_o", .dataPar⟩
    ⟨[.intConst 0], .boolConst true, [outerIter], name⟩
  else ⟨outerBindings, .boolConst true, outerIterVars, name⟩

/-- The mutable locals of `RewriteSeq` that the claims observe.  The
rewritten sequence itself (`new_seq`) only rearranges statements and is
not modelled; `blockized` is the out-parameter `*blockized_`. -/
structure SeqAcc where
  idxStart : Option Nat
  lastFoundIdx : Option Nat
  seqBody : List GStmt
  blockized : Option OuterRealize

/-- The loop of `RewriteSeq` (lines 847-909) over the children of the
LCA's `SeqStmt`.  A child containing a target extends the current run
(non-consecutive runs fail the `ICHECK`, modelled as `.error`); the outer
realize is built either when the run reaches the final child or when a
non-target child ends it. -/
def rewriteSeqGo (targets : List Nat) (outerIterVars : List IterVar)
    (outerBindings : List PrimExpr) (name : String) :
    List GStmt → Nat → SeqAcc → Except String SeqAcc
  | [], _, acc => .ok acc
  | child :: rest, curIdx, acc =>
    if containsTarget targets child then
      if acc.idxStart.isSome && !(acc.lastFoundIdx == some (curIdx - 1)) then
        .error "Target blocks must be consecutive!"
      else
        let acc :=
          { acc with
            idxStart := if acc.idxStart.isSome then acc.idxStart else some curIdx
            seqBody := acc.seqBody ++ [child]
            lastFoundIdx := some curIdx }
        let acc :=
          if rest.isEmpty then
            { acc with
              blockized := some (mkOuterRealize outerIterVars outerBindings name) }
          else acc
        rewriteSeqGo targets outerIterVars outerBindings name rest (curIdx + 1) acc
    else
      let acc :=
        if acc.idxStart.isSome && acc.lastFoundIdx == some (curIdx - 1) then
          { acc with
            blockized := some (mkOuterRealize outerIterVars outerBindings name) }
        else acc
      rewriteSeqGo targets outerIterVars outerBindings name rest (curIdx + 1) acc

/-- `RewriteSeq` on the children of the LCA's `SeqStmt`, starting from the
empty run. -/
def rewriteSeq (targets : List Nat) (outerIterVars : List IterVar)
    (outerBindings : List PrimExpr) (name : String)
    (children : List GStmt) : Except String SeqAcc :=
  rewriteSeqGo targets outerIterVars outerBindings name children 0
    ⟨none, none, [], none⟩

/-! ### `Blockize` group-form counterexample input (claim C1)

A scope root block `root` whose body is `for i(0,4) { for j(0,5) {
realize B1; realize B2 } }`, with the two target blocks `B1`, `B2` under
their LCA `for j`.  `B1` and `B2` each have a single data-parallel iter
var of extent 4 bound to `i`. -/

def groupExampleR1 : GStmt :=
  .grealize [.var "i"] (.boolConst true)
    (.gblock 3 "B1" [⟨rangeFromExtent (.intConst 4), "v0", .dataPar⟩] .gleaf)

def groupExampleR2 : GStmt :=
  .grealize [.var "i"] (.boolConst true)
    (.gblock 4 "B2" [⟨rangeFromExtent (.intConst 4), "w0", .dataPar⟩] .gleaf)

def groupExampleRoot : GStmt :=
  .gblock 0 "root" []
    (.gfor 1 "i" (.intConst 4)
      (.gfor 2 "j" (.intConst 5)
        (.gseq [groupExampleR1, groupExampleR2])))

/-- The collector output on the example, with LCA `for j` (id 2). -/
def groupExampleCollect : CollectState :=
  collectStmt 2 groupExampleRoot initCollectState

/-! ## Theorems -/

theorem deriveGo_spec (preserve : Bool)
    (l : List (IterVar × IterMark × IterMark)) (st : DeriveAcc) :
    (deriveGo preserve l st).subst
        = st.subst ++ l.map (deriveSubstShape preserve)
      ∧ (deriveGo preserve l st).innerIterVars
        = st.innerIterVars ++ (l.filter (fun e => !isOne e.2.2.extent)).map
            (fun e => ⟨rangeFromExtent e.2.2.extent,
              copyWithSuffix e.1.var "_i", e.1.iterType⟩) := by
  induction l generalizing st with
  | nil => simp [deriveGo]
  | cons hd tl ih =>
    obtain ⟨iv, om, im⟩ := hd
    have h := ih (deriveStep preserve iv om im st)
    simp only [deriveGo] at *
    by_cases h1 : isOne im.extent
    · by_cases h2 : isOne om.extent && !preserve
      · simp_all [deriveStep, deriveSubstShape]
      · simp_all [deriveStep, deriveSubstShape]
    · by_cases h2 : isOne om.extent
      · simp_all [deriveStep, deriveSubstShape]
      · simp_all [deriveStep, deriveSubstShape]

/-- Claim C2: for every original block iterator processed by
`DeriveBlockBinding`, the substitution recorded in the returned map is
exactly one of: the constant 0 (inner and outer extents both 1 and unit
iters not preserved), the outer iter var alone (inner extent 1
otherwise), the inner iter var alone (inner extent not 1, outer extent
1), or `outer_iter * inner_extent + inner_iter` (otherwise); and an inner
iter var is allocated exactly for the iterators whose inner extent is not
1. -/
theorem deriveBlockBinding_subst_cases (preserve : Bool)
    (iterVars : List IterVar) (division : List (IterMark × IterMark)) :
    (deriveBlockBinding preserve iterVars division).subst
        = (iterVars.zip division).map (deriveSubstShape preserve)
      ∧ (deriveBlockBinding preserve iterVars division).innerIterVars
        = ((iterVars.zip division).filter (fun e => !isOne e.2.2.extent)).map
            (fun e => ⟨rangeFromExtent e.2.2.extent,
              copyWithSuffix e.1.var "_i", e.1.iterType⟩) := by
  have h := deriveGo_spec preserve (iterVars.zip division) ⟨[], [], [], [], []⟩
  simpa [deriveBlockBinding] using h

/-- Claim C6: the inner block generated by single-loop blockize has the
original writes prepended to its reads precisely when the substituted
block has an init and some outer iter var is a reduction iterator, and
keeps its reads unchanged otherwise. -/
theorem generateInner_reads_prepend (block : BlockM) (outs : List IterVar)
    (ivs : List IterVar) (vals : List PrimExpr) (p : PrimExpr) :
    (generateInner (hasOuterReduction block outs) ivs vals p block).block.reads
      = if block.init.isSome ∧ ∃ iv ∈ outs, iv.iterType = .commReduce
        then block.writes ++ block.reads
        else block.reads := by
  by_cases h1 : block.init.isSome
  · by_cases h2 : ∃ iv ∈ outs, iv.iterType = .commReduce
    · have hany : outs.any (fun iv => iv.iterType == .commReduce) = true := by
        rw [List.any_eq_true]
        obtain ⟨iv, hmem, hty⟩ := h2
        exact ⟨iv, hmem, by simp [hty]⟩
      simp [generateInner, hasOuterReduction, h1, h2, hany]
    · have hany : outs.any (fun iv => iv.iterType == .commReduce) = false := by
        rw [Bool.eq_false_iff]
        intro hc
        rw [List.any_eq_true] at hc
        obtain ⟨iv, hmem, hty⟩ := hc
        exact h2 ⟨iv, hmem, by simpa using hty⟩
      simp [generateInner, hasOuterReduction, h1, h2, hany]
  · simp [generateInner, hasOuterReduction, h1]

/-- Claim C10: the affine-binding flag of the scope root after `Blockize`
equals the value `IsAffineBlockBinding` returned right before
`UpdateScopeBlockInfo` — the flag is captured, the scope info refresh
runs, and the captured value is written back, so the refresh cannot
change it (and when `Replace` preserves the cached flag, the final value
is the pre-blockize one). -/
theorem blockize_affine_flag_restored
    (replaceFn updateFn : SchedState → SchedState) (s : SchedState)
    (scopeRoot : Nat)
    (h : isAffineBlockBinding (replaceFn s) scopeRoot
          = isAffineBlockBinding s scopeRoot) :
    isAffineBlockBinding
        (blockizeUpdateInfo replaceFn updateFn s scopeRoot) scopeRoot
      = isAffineBlockBinding s scopeRoot := by
  simp [blockizeUpdateInfo, isAffineBlockBinding] at *
  exact h

theorem blockize_affine_flag_restored_witness :
    isAffineBlockBinding
        (blockizeUpdateInfo (fun s => s) (fun _ => ⟨fun _ => false⟩)
          ⟨fun _ => true⟩ 0) 0
      = isAffineBlockBinding (⟨fun _ => true⟩ : SchedState) 0 :=
  blockize_affine_flag_restored (fun s => s) (fun _ => ⟨fun _ => false⟩)
    ⟨fun _ => true⟩ 0 rfl

theorem trivialIterMark_normalize (b : PrimExpr) (iv : IterVar) :
    normalizeIterMapToExpr (trivialIterMark b iv).source = b
      ∧ (trivialIterMark b iv).extent = iv.dom.extent := by
  cases b <;> simp [trivialIterMark, normalizeIterMapToExpr]

theorem trivialGo_eq_none_iff (uo ui : PrimExpr → Bool)
    (l : List (PrimExpr × IterVar)) :
    trivialGo uo ui l = none ↔ ∃ p ∈ l, uo p.1 = true ∧ ui p.1 = true := by
  induction l with
  | nil => simp [trivialGo]
  | cons hd tl ih =>
    obtain ⟨b, iv⟩ := hd
    by_cases ho : uo b = true <;> by_cases hi : ui b = true <;>
      simp [trivialGo, ho, hi, Option.map_eq_none', ih]

theorem trivialGo_some_forall2 (uo ui : PrimExpr → Bool)
    (l : List (PrimExpr × IterVar)) (res : List (IterMark × IterMark))
    (h : trivialGo uo ui l = some res) :
    List.Forall₂ (trivialEntrySpec uo ui) l res := by
  induction l generalizing res with
  | nil =>
    simp [trivialGo] at h
    subst h
    exact List.Forall₂.nil
  | cons hd tl ih =>
    obtain ⟨b, iv⟩ := hd
    by_cases ho : uo b = true <;> by_cases hi : ui b = true
    · simp [trivialGo, ho, hi] at h
    · simp only [trivialGo, ho, hi] at h
      simp [Option.map_eq_some'] at h
      obtain ⟨r, hr, rfl⟩ := h
      refine List.Forall₂.cons ?_ (ih r hr)
      simp [trivialEntrySpec, ho, hi, trivialIterMark_normalize]
    · simp only [trivialGo, ho, hi] at h
      simp [Option.map_eq_some'] at h
      obtain ⟨r, hr, rfl⟩ := h
      refine List.Forall₂.cons ?_ (ih r hr)
      simp [trivialEntrySpec, ho, hi, trivialIterMark_normalize]
    · simp only [trivialGo, ho, hi] at h
      simp [Option.map_eq_some'] at h
      obtain ⟨r, hr, rfl⟩ := h
      refine List.Forall₂.cons ?_ (ih r hr)
      simp [trivialEntrySpec, ho, hi]

/-- Claim C3: the trivial fallback succeeds (returns a non-empty
division) exactly when the predicate is literally 1 and no binding uses
both outer and inner loop vars; on success the entries pair each binding
with marks that carry the binding on its used side and the unit iter-mark
on the unused side (two unit marks when neither side is used), followed
by a final predicate pair. -/
theorem trivialSubspaceDivision_spec (iterVars : List IterVar)
    (bindings : List PrimExpr) (predicate : PrimExpr)
    (outerIters innerIters : List Var) :
    (trivialSubspaceDivision iterVars bindings predicate outerIters innerIters ≠ []
      ↔ (isOne predicate = true ∧ ∀ p ∈ bindings.zip iterVars,
          ¬(usesAnyOf outerIters p.1 = true ∧ usesAnyOf innerIters p.1 = true)))
    ∧ (trivialSubspaceDivision iterVars bindings predicate outerIters innerIters ≠ [] →
        (trivialSubspaceDivision iterVars bindings predicate outerIters
            innerIters).getLast? = some (trivialPredMark, trivialPredMark)
        ∧ List.Forall₂
            (trivialEntrySpec (usesAnyOf outerIters) (usesAnyOf innerIters))
            (bindings.zip iterVars)
            (trivialSubspaceDivision iterVars bindings predicate outerIters
              innerIters).dropLast) := by
  by_cases hp : isOne predicate = true
  · rcases hgo : trivialGo (usesAnyOf outerIters) (usesAnyOf innerIters)
        (bindings.zip iterVars) with _ | r
    · have hex := (trivialGo_eq_none_iff (usesAnyOf outerIters)
        (usesAnyOf innerIters) (bindings.zip iterVars)).mp hgo
      constructor
      · simp only [trivialSubspaceDivision, hp, hgo]
        simp only [Bool.not_true, Bool.false_eq_true, if_false]
        constructor
        · intro hne
          exact absurd rfl hne
        · rintro ⟨-, hall⟩
          obtain ⟨p, hmem, hboth⟩ := hex
          exact absurd hboth (hall p hmem)
      · intro hne
        exfalso
        apply hne
        simp [trivialSubspaceDivision, hp, hgo]
    · constructor
      · simp only [trivialSubspaceDivision, hp, hgo]
        simp only [Bool.not_true, Bool.false_eq_true, if_false]
        constructor
        · intro _
          refine ⟨by simp [hp], fun p hmem hboth => ?_⟩
          have : trivialGo (usesAnyOf outerIters) (usesAnyOf innerIters)
              (bindings.zip iterVars) = none := by
            rw [trivialGo_eq_none_iff]
            exact ⟨p, hmem, hboth⟩
          rw [this] at hgo
          exact Option.noConfusion hgo
        · intro _
          simp
      · intro _
        have h2 := trivialGo_some_forall2 _ _ _ _ hgo
        constructor
        · simp [trivialSubspaceDivision, hp, hgo]
        · simpa [trivialSubspaceDivision, hp, hgo, List.dropLast_concat] using h2
  · have hfalse : isOne predicate = false := by
      revert hp
      cases isOne predicate <;> simp
    have hempty : trivialSubspaceDivision iterVars bindings predicate
        outerIters innerIters = [] := by
      simp [trivialSubspaceDivision, hfalse]
    constructor
    · rw [hempty]
      simp [hfalse]
    · intro hne
      exact absurd hempty hne

theorem trivialSubspaceDivision_spec_witness :
    List.Forall₂
        (trivialEntrySpec (usesAnyOf ["a"]) (usesAnyOf ["b"]))
        ([PrimExpr.var "a"].zip
          [(⟨rangeFromExtent (.intConst 4), "va", .dataPar⟩ : IterVar)])
        (trivialSubspaceDivision
          [⟨rangeFromExtent (.intConst 4), "va", .dataPar⟩]
          [PrimExpr.var "a"] (.intConst 1) ["a"] ["b"]).dropLast :=
  ((trivialSubspaceDivision_spec
      [⟨rangeFromExtent (.intConst 4), "va", .dataPar⟩]
      [PrimExpr.var "a"] (.intConst 1) ["a"] ["b"]).2 (by decide)).2

/-- Counterexample to claim C5 as stated: with two inner loops — the
bottom loop `l1` (the block's immediate parent) and the blockize target
loop `l2` above it — an empty division raises the error, but its
locations of interest contain the topmost inner loop `l2` (the last
collected, `loops.back()`), not the bottommost inner loop `l1`. -/
theorem subspaceNotDivisible_location_counterexample :
    (collectInnerLoops 11
        [⟨10, "l1", .intConst 0, .intConst 4⟩,
         ⟨11, "l2", .intConst 0, .intConst 5⟩]).head?
      = some ⟨10, "l1", .intConst 0, .intConst 4⟩
    ∧ blockizeDivisionCheck "mod" []
        (collectInnerLoops 11
          [⟨10, "l1", .intConst 0, .intConst 4⟩,
           ⟨11, "l2", .intConst 0, .intConst 5⟩])
        ⟨[], [], [], "B", none⟩
      = some ⟨"mod", ⟨11, "l2", .intConst 0, .intConst 5⟩, ⟨[], [], [], "B", none⟩⟩
    ∧ (SNDError.locationsOfInterest
        ⟨"mod", ⟨11, "l2", .intConst 0, .intConst 5⟩, ⟨[], [], [], "B", none⟩⟩
        = [.blockLoc ⟨[], [], [], "B", none⟩,
           .forLoc ⟨11, "l2", .intConst 0, .intConst 5⟩])
    ∧ ¬ (Loc.forLoc ⟨10, "l1", .intConst 0, .intConst 4⟩
          ∈ SNDError.locationsOfInterest
            ⟨"mod", ⟨11, "l2", .intConst 0, .intConst 5⟩,
              ⟨[], [], [], "B", none⟩⟩) := by
  decide

/-- Claim C5, amended: on an empty division, single-loop blockize raises
`SubspaceNotDivisibleError` whose fast error string is the schedule-error
prefix followed by "The bindings of the inner block can not be
blockized.", and whose locations of interest are the inner block and the
*last collected* inner loop (`loops.back()`), i.e. the topmost inner
loop — the loop blockize was invoked on — rather than the bottommost. -/
theorem subspaceNotDivisible_error_contents (mod : String)
    (division : List (IterMark × IterMark)) (loops : List ForStmt)
    (blk : BlockM) (l : ForStmt)
    (hdiv : division = []) (hlast : loops.getLast? = some l) :
    blockizeDivisionCheck mod division loops blk = some ⟨mod, l, blk⟩
      ∧ SNDError.fastErrorString ⟨mod, l, blk⟩
          = "ScheduleError: "
            ++ "The bindings of the inner block can not be blockized."
      ∧ SNDError.locationsOfInterest ⟨mod, l, blk⟩
          = [.blockLoc blk, .forLoc l] := by
  subst hdiv
  refine ⟨?_, rfl, rfl⟩
  simp [blockizeDivisionCheck, hlast]

theorem subspaceNotDivisible_error_contents_witness :
    blockizeDivisionCheck "m" [] [⟨7, "x", .intConst 0, .intConst 2⟩]
        ⟨[], [], [], "B", none⟩
      = some ⟨"m", ⟨7, "x", .intConst 0, .intConst 2⟩, ⟨[], [], [], "B", none⟩⟩ :=
  (subspaceNotDivisible_error_contents "m" [] [⟨7, "x", .intConst 0, .intConst 2⟩]
    ⟨[], [], [], "B", none⟩ ⟨7, "x", .intConst 0, .intConst 2⟩ rfl rfl).1

theorem initFilterIters_spec (blockInit : SStmt)
    (l : List (IterVar × PrimExpr)) :
    initFilterIters blockInit l
      = ((l.filter (fun p =>
            p.1.iterType == .dataPar && blockInit.usesVar p.1.var)).map
            (fun p => (p.1.var, copyWithSuffix p.1.var "_init")),
          (l.filter (fun p =>
            p.1.iterType == .dataPar && blockInit.usesVar p.1.var)).map
            (fun p => { p.1 with var := copyWithSuffix p.1.var "_init" }),
          (l.filter (fun p =>
            p.1.iterType == .dataPar && blockInit.usesVar p.1.var)).map
            (fun p => p.2)) := by
  induction l with
  | nil => simp [initFilterIters]
  | cons hd tl ih =>
    obtain ⟨iv, v⟩ := hd
    by_cases hc : (iv.iterType == .dataPar && blockInit.usesVar iv.var) = true <;>
      simp [initFilterIters, List.filter_cons, hc, ih]

theorem wrapInitLoops_subtree (iterValues : List PrimExpr)
    (loops : List ForStmt) (stmt : InitSubtree) (sm : List (Var × Var)) :
    (wrapInitLoops iterValues loops (stmt, sm)).1.loopVars
        = ((loops.filter (fun l =>
            iterValues.any (fun b => b.occurs l.loopVar))).map
            (fun l => copyWithSuffix l.loopVar "")).reverse ++ stmt.loopVars
      ∧ (wrapInitLoops iterValues loops (stmt, sm)).1.initIterVars
        = stmt.initIterVars := by
  induction loops generalizing stmt sm with
  | nil => simp [wrapInitLoops]
  | cons hd tl ih =>
    by_cases hc : iterValues.any (fun b => b.occurs hd.loopVar) = true <;>
      simp [wrapInitLoops, List.filter_cons, hc, ih,
        InitSubtree.loopVars, InitSubtree.initIterVars]

theorem substVars_projections (sm : List (Var × Var)) (s : InitSubtree) :
    (s.substVars sm).loopVars = s.loopVars
      ∧ (s.substVars sm).initIterVars.map (fun iv => (iv.var, iv.iterType))
        = s.initIterVars.map (fun iv => (iv.var, iv.iterType)) := by
  induction s with
  | realizeS r =>
    simp [InitSubtree.substVars, InitSubtree.loopVars, InitSubtree.initIterVars]
  | forS f b ih =>
    simp [InitSubtree.substVars, InitSubtree.loopVars,
      InitSubtree.initIterVars, ih]

/-- Claim C7: the init block's iter vars are exactly the inner block's
data-parallel iter vars whose variable is referenced by the init body
(renamed with the `_init` suffix and keeping their iterator kind), and
the cloned loops wrapping the init block are exactly the inner loops
whose loop var appears in at least one init binding. -/
theorem generateOuterInit_characterization (blockInit : SStmt)
    (innerRealize : BlockRealizeM) (loops : List ForStmt) (name : String) :
    (generateOuterInit blockInit innerRealize loops name).initIterVars.map
        (fun iv => (iv.var, iv.iterType))
      = ((innerRealize.block.iterVars.zip innerRealize.iterValues).filter
          (fun p => p.1.iterType == .dataPar && blockInit.usesVar p.1.var)).map
          (fun p => (copyWithSuffix p.1.var "_init", p.1.iterType))
    ∧ (generateOuterInit blockInit innerRealize loops name).loopVars
      = ((loops.filter (fun l =>
          (((innerRealize.block.iterVars.zip innerRealize.iterValues).filter
            (fun p =>
              p.1.iterType == .dataPar && blockInit.usesVar p.1.var)).map
            (fun p => p.2)).any (fun b => b.occurs l.loopVar))).map
          (fun l => copyWithSuffix l.loopVar "")).reverse := by
  simp only [generateOuterInit, initFilterIters_spec]
  have hwrap := wrapInitLoops_subtree
  have hsub := substVars_projections
  constructor
  · rw [(hsub _ _).2, (hwrap _ _ _ _).2]
    simp [InitSubtree.initIterVars, List.map_map, Function.comp]
  · rw [(hsub _ _).1, (hwrap _ _ _ _).1]
    simp [InitSubtree.loopVars]

/-- Claim C4: the emitted `MatchBufferRegion` maps the impl buffer onto
the current buffer; its target region has one range per current-buffer
shape dimension (given the comparator's guarantee that the base indices
have one entry per dimension), the first `offset` ranges are point
accesses `(indices[k], 1)`, and the remaining ranges carry the impl
buffer's original extents cast to the dtype of the corresponding base
index. -/
theorem mkMatchBufferRegion_spec (impl cur : TBuffer)
    (indicesBase : List TExpr) (oldRegion : List TRange)
    (hoff : oldRegion.length ≤ indicesBase.length)
    (hshape : indicesBase.length = cur.shape.length) :
    (mkMatchBufferRegion impl cur indicesBase oldRegion).source = impl
    ∧ (mkMatchBufferRegion impl cur indicesBase oldRegion).target.buffer = cur
    ∧ (mkMatchBufferRegion impl cur indicesBase oldRegion).target.region.length
        = cur.shape.length
    ∧ (∀ k, k < indicesBase.length - oldRegion.length →
        (mkMatchBufferRegion impl cur indicesBase oldRegion).target.region[k]?
          = some ⟨indicesBase.getD k (.const ⟨0⟩ 0),
              .const (indicesBase.getD k (.const ⟨0⟩ 0)).dtype 1⟩)
    ∧ (∀ k, k < oldRegion.length →
        (mkMatchBufferRegion impl cur indicesBase
            oldRegion).target.region[(indicesBase.length - oldRegion.length) + k]?
          = some ⟨indicesBase.getD (k + (indicesBase.length - oldRegion.length))
                (.const ⟨0⟩ 0),
              .cast (indicesBase.getD (k + (indicesBase.length - oldRegion.length))
                  (.const ⟨0⟩ 0)).dtype
                (oldRegion.getD k ⟨.const ⟨0⟩ 0, .const ⟨0⟩ 0⟩).extent⟩) := by
  refine ⟨rfl, rfl, ?_, ?_, ?_⟩
  · simp only [mkMatchBufferRegion, mkNewRegion, List.length_append,
      List.length_map, List.length_range]
    omega
  · intro k hk
    simp only [mkMatchBufferRegion, mkNewRegion]
    rw [List.getElem?_append, if_pos (by simpa using hk)]
    simp [List.getElem?_map, List.getElem?_range, hk]
  · intro k hk
    simp only [mkMatchBufferRegion, mkNewRegion]
    rw [List.getElem?_append, if_neg (by simp)]
    simp [List.getElem?_map, List.getElem?_range, hk, Nat.add_sub_cancel_left,
      Nat.add_comm]

theorem mkMatchBufferRegion_spec_witness :
    (mkMatchBufferRegion ⟨"Ai", [.const ⟨32⟩ 16, .const ⟨32⟩ 16]⟩
        ⟨"A", [.const ⟨32⟩ 1, .const ⟨32⟩ 64, .const ⟨32⟩ 64]⟩
        [.var "n" ⟨32⟩, .var "i0" ⟨32⟩, .var "k0" ⟨32⟩]
        [⟨.const ⟨32⟩ 0, .const ⟨32⟩ 16⟩,
          ⟨.const ⟨32⟩ 0, .const ⟨32⟩ 16⟩]).target.region.length = 3
    ∧ (mkMatchBufferRegion ⟨"Ai", [.const ⟨32⟩ 16, .const ⟨32⟩ 16]⟩
        ⟨"A", [.const ⟨32⟩ 1, .const ⟨32⟩ 64, .const ⟨32⟩ 64]⟩
        [.var "n" ⟨32⟩, .var "i0" ⟨32⟩, .var "k0" ⟨32⟩]
        [⟨.const ⟨32⟩ 0, .const ⟨32⟩ 16⟩,
          ⟨.const ⟨32⟩ 0, .const ⟨32⟩ 16⟩]).target.region[0]?
      = some ⟨.var "n" ⟨32⟩, .const ⟨32⟩ 1⟩
    ∧ (mkMatchBufferRegion ⟨"Ai", [.const ⟨32⟩ 16, .const ⟨32⟩ 16]⟩
        ⟨"A", [.const ⟨32⟩ 1, .const ⟨32⟩ 64, .const ⟨32⟩ 64]⟩
        [.var "n" ⟨32⟩, .var "i0" ⟨32⟩, .var "k0" ⟨32⟩]
        [⟨.const ⟨32⟩ 0, .const ⟨32⟩ 16⟩,
          ⟨.const ⟨32⟩ 0, .const ⟨32⟩ 16⟩]).target.region[1]?
      = some ⟨.var "i0" ⟨32⟩, .cast ⟨32⟩ (.const ⟨32⟩ 16)⟩ := by
  have h := mkMatchBufferRegion_spec ⟨"Ai", [.const ⟨32⟩ 16, .const ⟨32⟩ 16]⟩
    ⟨"A", [.const ⟨32⟩ 1, .const ⟨32⟩ 64, .const ⟨32⟩ 64]⟩
    [.var "n" ⟨32⟩, .var "i0" ⟨32⟩, .var "k0" ⟨32⟩]
    [⟨.const ⟨32⟩ 0, .const ⟨32⟩ 16⟩, ⟨.const ⟨32⟩ 0, .const ⟨32⟩ 16⟩]
    (by decide) (by decide)
  exact ⟨h.2.2.1, h.2.2.2.1 0 (by decide), h.2.2.2.2 0 (by decide)⟩

theorem updateMaxDtypeBits_eq_foldl (acc : Int) (brs : List TBufferRegion) :
    updateMaxDtypeBitsFromRegion acc brs
      = (brs.flatMap fun br =>
          br.region.map fun r => (r.min.dtype.bits : Int)).foldl max acc := by
  induction brs generalizing acc with
  | nil => simp [updateMaxDtypeBitsFromRegion]
  | cons hd tl ih =>
    simp only [updateMaxDtypeBitsFromRegion, List.foldl_cons, List.flatMap_cons,
      List.foldl_append] at *
    rw [ih, List.foldl_map]

theorem le_foldl_max (l : List Int) (a : Int) : a ≤ l.foldl max a := by
  induction l generalizing a with
  | nil => simp
  | cons hd tl ih => exact le_trans (le_max_left a hd) (ih (max a hd))

theorem mem_le_foldl_max (l : List Int) (a b : Int) (hb : b ∈ l) :
    b ≤ l.foldl max a := by
  induction l generalizing a with
  | nil => simp at hb
  | cons hd tl ih =>
    rcases List.mem_cons.mp hb with rfl | h
    · exact le_trans (le_max_right a b) (le_foldl_max tl (max a b))
    · exact ih (max a hd) h

theorem foldl_max_mem_or (l : List Int) (a : Int) :
    l.foldl max a = a ∨ l.foldl max a ∈ l := by
  induction l generalizing a with
  | nil => left; rfl
  | cons hd tl ih =>
    rw [List.foldl_cons]
    rcases ih (max a hd) with h | h
    · rw [h]
      rcases max_choice a hd with h2 | h2
      · left; exact h2
      · right; rw [h2]; exact List.mem_cons_self hd tl
    · right; exact List.mem_cons_of_mem hd h

theorem tensorizeBits_eq_foldl (reads writes : List TBufferRegion) :
    updateMaxDtypeBitsFromRegion (updateMaxDtypeBitsFromRegion (-1) reads)
        writes
      = (scannedBits reads writes).foldl max (-1) := by
  rw [updateMaxDtypeBits_eq_foldl, updateMaxDtypeBits_eq_foldl, scannedBits,
    List.flatMap_append, List.foldl_append]

/-- Claim C8: the index width Tensorize computes is the maximum
dtype-bit-width across all region bounds of the matched block's reads and
writes; the step rewrites a deep copy of the registered implementation to
that width and hands the registry entry back unmutated; and it fails
(the `ICHECK(index_dtype_bits > 0)`) exactly when the scan visited no
bound. -/
theorem tensorizeIndexNormalize_spec (registryImpl : IntrinImpl)
    (reads writes : List TBufferRegion)
    (hpos : ∀ b ∈ scannedBits reads writes, 0 < b) :
    (tensorizeIndexNormalize registryImpl reads writes = none
        ↔ scannedBits reads writes = [])
      ∧ (∀ b ∈ scannedBits reads writes,
          b ≤ (scannedBits reads writes).foldl max (-1))
      ∧ (scannedBits reads writes ≠ [] →
          (scannedBits reads writes).foldl max (-1) ∈ scannedBits reads writes)
      ∧ (∀ out, tensorizeIndexNormalize registryImpl reads writes = some out →
          out.1 = indexDataTypeNormalizer
              ((scannedBits reads writes).foldl max (-1)) registryImpl
            ∧ out.2 = registryImpl) := by
  have hfold := tensorizeBits_eq_foldl reads writes
  have hmem : scannedBits reads writes ≠ [] →
      (scannedBits reads writes).foldl max (-1) ∈ scannedBits reads writes := by
    intro hne
    rcases foldl_max_mem_or (scannedBits reads writes) (-1) with h | h
    · exfalso
      obtain ⟨b, hb⟩ := List.exists_mem_of_ne_nil _ hne
      have h1 := mem_le_foldl_max (scannedBits reads writes) (-1) b hb
      have h2 := hpos b hb
      omega
    · exact h
  have hposfold : scannedBits reads writes ≠ [] →
      0 < (scannedBits reads writes).foldl max (-1) := by
    intro hne
    exact hpos _ (hmem hne)
  refine ⟨?_, fun b hb => mem_le_foldl_max _ _ b hb, hmem, ?_⟩
  · constructor
    · intro hn
      by_contra hne
      have := hposfold hne
      simp only [tensorizeIndexNormalize, deepCopy, hfold] at hn
      rw [if_pos this] at hn
      exact Option.noConfusion hn
    · intro he
      simp [tensorizeIndexNormalize, deepCopy, hfold, he]
  · intro out hout
    simp only [tensorizeIndexNormalize, deepCopy, hfold] at hout
    by_cases hgt : (0 : Int) < (scannedBits reads writes).foldl max (-1)
    · rw [if_pos hgt] at hout
      obtain rfl := Option.some.injEq .. ▸ hout
      exact ⟨rfl, rfl⟩
    · rw [if_neg hgt] at hout
      exact Option.noConfusion hout

theorem tensorizeIndexNormalize_spec_witness :
    tensorizeIndexNormalize ⟨"mma", 32⟩
        [⟨⟨"A", []⟩, [⟨.var "i" ⟨16⟩, .const ⟨16⟩ 16⟩]⟩]
        [⟨⟨"C", []⟩, [⟨.var "j" ⟨64⟩, .const ⟨64⟩ 16⟩]⟩]
      = some (indexDataTypeNormalizer 64 ⟨"mma", 32⟩, ⟨"mma", 32⟩) := by
  have h := tensorizeIndexNormalize_spec ⟨"mma", 32⟩
    [⟨⟨"A", []⟩, [⟨.var "i" ⟨16⟩, .const ⟨16⟩ 16⟩]⟩]
    [⟨⟨"C", []⟩, [⟨.var "j" ⟨64⟩, .const ⟨64⟩ 16⟩]⟩]
    (by decide)
  rcases hout : tensorizeIndexNormalize ⟨"mma", 32⟩
      [⟨⟨"A", []⟩, [⟨.var "i" ⟨16⟩, .const ⟨16⟩ 16⟩]⟩]
      [⟨⟨"C", []⟩, [⟨.var "j" ⟨64⟩, .const ⟨64⟩ 16⟩]⟩] with _ | out
  · exact absurd (h.1.mp hout) (by decide)
  · obtain ⟨h1, h2⟩ := h.2.2.2 out hout
    have hb : ((scannedBits
        [⟨⟨"A", []⟩, [⟨.var "i" ⟨16⟩, .const ⟨16⟩ 16⟩]⟩]
        [⟨⟨"C", []⟩, [⟨.var "j" ⟨64⟩, .const ⟨64⟩ 16⟩]⟩]).foldl max (-1) : Int)
        = 64 := by decide
    rw [hb] at h1
    rw [show out = (out.1, out.2) from rfl, h1, h2]

theorem mkOuterRealize_predicate (oiv : List IterVar) (ob : List PrimExpr)
    (name : String) :
    (mkOuterRealize oiv ob name).predicate = .boolConst true := by
  unfold mkOuterRealize
  split <;> rfl

theorem rewriteSeqGo_predicate (targets : List Nat) (oiv : List IterVar)
    (ob : List PrimExpr) (name : String) (children : List GStmt)
    (curIdx : Nat) (acc : SeqAcc)
    (hacc : ∀ br, acc.blockized = some br → br.predicate = .boolConst true)
    (st : SeqAcc)
    (hok : rewriteSeqGo targets oiv ob name children curIdx acc = .ok st)
    (br : OuterRealize) (hbr : st.blockized = some br) :
    br.predicate = .boolConst true := by
  induction children generalizing curIdx acc with
  | nil =>
    simp only [rewriteSeqGo, Except.ok.injEq] at hok
    subst hok
    exact hacc br hbr
  | cons child rest ih =>
    simp only [rewriteSeqGo] at hok
    by_cases hct : containsTarget targets child = true
    · simp only [hct, if_true] at hok
      by_cases herr :
          (acc.idxStart.isSome && !(acc.lastFoundIdx == some (curIdx - 1))) = true
      · simp only [herr, if_true] at hok
        exact Except.noConfusion hok
      · rw [Bool.not_eq_true] at herr
        simp only [herr, Bool.false_eq_true, if_false] at hok
        by_cases hrest : rest.isEmpty = true
        · simp only [hrest, if_true] at hok
          refine ih (curIdx + 1) _ ?_ hok
          intro br' hbr'
          simp only [Option.some.injEq] at hbr'
          rw [← hbr']
          exact mkOuterRealize_predicate oiv ob name
        · rw [Bool.not_eq_true] at hrest
          simp only [hrest, Bool.false_eq_true, if_false] at hok
          refine ih (curIdx + 1) _ ?_ hok
          intro br' hbr'
          exact hacc br' hbr'
    · rw [Bool.not_eq_true] at hct
      simp only [hct, Bool.false_eq_true, if_false] at hok
      by_cases hbuild :
          (acc.idxStart.isSome && (acc.lastFoundIdx == some (curIdx - 1))) = true
      · simp only [hbuild, if_true] at hok
        refine ih (curIdx + 1) _ ?_ hok
        intro br' hbr'
        simp only [Option.some.injEq] at hbr'
        rw [← hbr']
        exact mkOuterRealize_predicate oiv ob name
      · rw [Bool.not_eq_true] at hbuild
        simp only [hbuild, Bool.false_eq_true, if_false] at hok
        exact ih (curIdx + 1) _ hacc hok

/-- Claim C9: every outer `BlockRealize` the group-form rewrite produces
carries the literal boolean predicate `true`, whether the outer iter vars
were collected from the path above the LCA or the dummy unit iterator was
synthesized. -/
theorem rewriteSeq_outer_predicate_true (targets : List Nat)
    (oiv : List IterVar) (ob : List PrimExpr) (name : String)
    (children : List GStmt) (st : SeqAcc) (br : OuterRealize)
    (hok : rewriteSeq targets oiv ob name children = .ok st)
    (hbr : st.blockized = some br) :
    br.predicate = .boolConst true :=
  rewriteSeqGo_predicate targets oiv ob name children 0 ⟨none, none, [], none⟩
    (fun _ h => Option.noConfusion h) st hok br hbr

theorem rewriteSeq_outer_predicate_true_witness :
    (mkOuterRealize [] [] "outer_b_").predicate = .boolConst true :=
  rewriteSeq_outer_predicate_true [5] [] [] "outer_b_"
    [.gblock 5 "b" [] .gleaf]
    ⟨some 0, some 0, [.gblock 5 "b" [] .gleaf],
      some (mkOuterRealize [] [] "outer_b_")⟩
    (mkOuterRealize [] [] "outer_b_") rfl rfl

/-- Claim C1 at its failing input (group form): on the example nest —
scope root `root` over `for i(4) / for j(5)` with LCA `for j` and the two
target blocks each carrying a single iter var of extent 4 — every
`ICHECK` of the collector passes, the collector records one outer binding
per path loop (2) but mints outer iter vars only per iterator of the
first collected block (1), and the outer `BlockRealize` built by
`RewriteSeq` therefore has 2 iter values against 1 block iter var. -/
theorem groupBlockize_outer_size_mismatch :
    groupExampleCollect.checksOk = true
      ∧ groupExampleCollect.outerBindings.length = 2
      ∧ groupExampleCollect.outerIterVars.length = 1
      ∧ ((rewriteSeq [3, 4] groupExampleCollect.outerIterVars
            groupExampleCollect.outerBindings "outer_B1_B2_"
            [groupExampleR1, groupExampleR2]).toOption.bind
          (fun acc => acc.blockized)).map
            (fun br => (br.iterValues.length, br.iterVars.length))
        = some (2, 1) :=
  ⟨by decide, by decide, by decide, by decide⟩

end BlockizeVerify
